import Mathlib

/-!
Verification of the tabular/geometry loading pipelines of the
"visualizador-eventos-geotecnicos" dashboard.

Shallow embedding conventions:
* Python strings are `List Char`; per-cell semantics of pandas column
  operations are modelled element-wise (the source applies them with
  `Series.map`-like broadcasting).
* Machine floats that only carry decimal literals parsed from text are
  modelled as `ℚ` (exact decimal values); `np.pi` is modelled by the exact
  rational value of the IEEE-754 double `3.141592653589793`.
* Fallible operations return `Option`; pandas `errors='coerce'` null results
  are `none`.
-/

namespace GeoViz

/-- A parsed timestamp at minute resolution, as produced by the
date formats `%d/%m/%Y [%H:%M]` in `data_loader.py`. -/
structure DT where
  day : Nat
  month : Nat
  year : Nat
  hour : Nat
  minute : Nat
deriving DecidableEq, Repr

/-- Python `str.isspace`-style whitespace characters (ASCII subset),
used by `str.strip()` in `parse_date_flexible`. -/
def isPySpace (c : Char) : Bool :=
  c = ' ' || c = '\t' || c = '\n' || c = '\r' || c = '\x0b' || c = '\x0c'

/-- `str.strip()` on a Python string: drop whitespace from both ends. -/
def pyStrip (s : List Char) : List Char :=
  ((s.dropWhile isPySpace).reverse.dropWhile isPySpace).reverse

/-- The regex replacement `re.sub(r'^[^\d]', '', s)` used in
`parse_date_flexible`: removes one leading non-digit character. -/
def stripLeadNonDigit : List Char → List Char
  | [] => []
  | c :: rest => if c.isDigit then c :: rest else rest

/-- The cleaning applied to every raw date string in `parse_date_flexible`:
`.str.strip()` then `.str.replace(r'^[^\d]', '', regex=True)`. -/
def cleanDate (s : List Char) : List Char :=
  stripLeadNonDigit (pyStrip s)

/-- Numeric value of a digit string (most significant first). -/
def digitsVal (ds : List Char) : Nat :=
  ds.foldl (fun a c => 10 * a + (c.toNat - '0'.toNat)) 0

/-- strptime-style numeric field: a maximal run of `minLen`–`maxLen` digits
whose value lies in `[lo, hi]`; returns the value and remaining input. -/
def parseNumField (lo hi minLen maxLen : Nat) (c : List Char) :
    Option (Nat × List Char) :=
  if minLen ≤ (c.takeWhile Char.isDigit).length ∧
      (c.takeWhile Char.isDigit).length ≤ maxLen ∧
      lo ≤ digitsVal (c.takeWhile Char.isDigit) ∧
      digitsVal (c.takeWhile Char.isDigit) ≤ hi then
    some (digitsVal (c.takeWhile Char.isDigit), c.dropWhile Char.isDigit)
  else none

/-- A literal character of a strptime format. -/
def parseLitChar (ch : Char) : List Char → Option (List Char)
  | [] => none
  | c :: rest => if c = ch then some rest else none

/-- Whitespace in a strptime format matches a nonempty whitespace run. -/
def parseSpaces1 (c : List Char) : Option (List Char) :=
  if (c.takeWhile isPySpace).length ≥ 1 then some (c.dropWhile isPySpace)
  else none

/-- Gregorian leap-year rule (as in Python's `datetime`). -/
def isLeap (y : Nat) : Bool :=
  (y % 4 = 0 ∧ y % 100 ≠ 0) ∨ y % 400 = 0

/-- Days in a month (as validated by the `datetime` constructor). -/
def daysInMonth (y m : Nat) : Nat :=
  if m = 2 then (if isLeap y then 29 else 28)
  else if m = 4 ∨ m = 6 ∨ m = 9 ∨ m = 11 then 30
  else 31

/-- Calendar validity of a day/month/year triple. -/
def validDate (d m y : Nat) : Bool :=
  1 ≤ m ∧ m ≤ 12 ∧ 1 ≤ d ∧ d ≤ daysInMonth y m

/-- Days since 1970-01-01 of a proleptic Gregorian date
(Hinnant's civil-from-days inverse, as used by timestamp libraries). -/
def daysFromCivil (y m d : Int) : Int :=
  let y2 : Int := if m ≤ 2 then y - 1 else y
  let era : Int := (if 0 ≤ y2 then y2 else y2 - 399) / 400
  let yoe : Int := y2 - era * 400
  let mp : Int := (m + 9) % 12
  let doy : Int := (153 * mp + 2) / 5 + d - 1
  let doe : Int := yoe * 365 + yoe / 4 - yoe / 100 + doy
  era * 146097 + doe - 719468

/-- Minutes since the epoch of a parsed timestamp. -/
def epochMinutes (t : DT) : Int :=
  daysFromCivil t.year t.month t.day * 1440 + t.hour * 60 + t.minute

/-- Whether the timestamp is representable as a pandas `Timestamp`
(signed 64-bit nanoseconds since the epoch); out-of-range values become
`NaT` under `errors='coerce'`. -/
def tsRepresentable (t : DT) : Bool :=
  decide (-9223372036854775808 ≤ epochMinutes t * 60000000000 ∧
    epochMinutes t * 60000000000 ≤ 9223372036854775807)

/-- Parse `%d<sep>%m<sep>%Y` returning day, month, year and the rest. -/
def matchDMY (sep : Char) (c : List Char) :
    Option (Nat × Nat × Nat × List Char) :=
  (parseNumField 1 31 1 2 c).bind fun dp =>
    (parseLitChar sep dp.2).bind fun c2 =>
      (parseNumField 1 12 1 2 c2).bind fun mp =>
        (parseLitChar sep mp.2).bind fun c4 =>
          (parseNumField 0 9999 4 4 c4).map fun yp =>
            (dp.1, mp.1, yp.1, yp.2)

/-- Parse `%H:%M` returning hour, minute and the rest. -/
def matchHM (c : List Char) : Option (Nat × Nat × List Char) :=
  (parseNumField 0 23 1 2 c).bind fun hp =>
    (parseLitChar ':' hp.2).bind fun c2 =>
      (parseNumField 0 59 1 2 c2).map fun mp =>
        (hp.1, mp.1, mp.2)

/-- The four candidate formats of `formats_to_try` in `parse_date_flexible`. -/
inductive DateFmt
  | slashHM
  | slashOnly
  | dashHM
  | dashOnly
deriving DecidableEq, Repr

/-- `['%d/%m/%Y %H:%M', '%d/%m/%Y', '%d-%m-%Y %H:%M', '%d-%m-%Y']`. -/
def formatsToTry : List DateFmt :=
  [DateFmt.slashHM, DateFmt.slashOnly, DateFmt.dashHM, DateFmt.dashOnly]

/-- Separator character of a candidate format. -/
def fmtSep : DateFmt → Char
  | DateFmt.slashHM | DateFmt.slashOnly => '/'
  | DateFmt.dashHM | DateFmt.dashOnly => '-'

/-- Whether a candidate format carries an `%H:%M` time part. -/
def fmtWithTime : DateFmt → Bool
  | DateFmt.slashHM | DateFmt.dashHM => true
  | DateFmt.slashOnly | DateFmt.dashOnly => false

/-- Strict whole-string match of one candidate format, including calendar
validation and pandas `Timestamp` range (failures coerce to `NaT`). -/
def matchFmt (f : DateFmt) (c : List Char) : Option DT :=
  (matchDMY (fmtSep f) c).bind fun r =>
    if fmtWithTime f then
      (parseSpaces1 r.2.2.2).bind fun rest1 =>
        (matchHM rest1).bind fun q =>
          if q.2.2 = [] ∧ validDate r.1 r.2.1 r.2.2.1 ∧
              tsRepresentable ⟨r.1, r.2.1, r.2.2.1, q.1, q.2.1⟩ then
            some ⟨r.1, r.2.1, r.2.2.1, q.1, q.2.1⟩
          else none
    else
      if r.2.2.2 = [] ∧ validDate r.1 r.2.1 r.2.2.1 ∧
          tsRepresentable ⟨r.1, r.2.1, r.2.2.1, 0, 0⟩ then
        some ⟨r.1, r.2.1, r.2.2.1, 0, 0⟩
      else none

/-- The loop `for fmt in formats_to_try: result[mask] = to_datetime(...)`
at a single cell: each format is tried only while the cell is unparsed. -/
def applyFormats (c : List Char) : Option DT :=
  formatsToTry.foldl
    (fun r f => match r with
      | some d => some d
      | none => matchFmt f c)
    none

/-- `parse_date_flexible` at a single cell (the source applies it to a
whole `Series` element-wise): clean, try the four formats in order, then
fall back to `pd.to_datetime(..., dayfirst=True)` whose inference is the
abstract parameter `auto`. -/
def parse_date_flexible (auto : List Char → Option DT) (s : List Char) :
    Option DT :=
  match applyFormats (cleanDate s) with
  | some d => some d
  | none => auto (cleanDate s)

/-- A fallback that never parses (used to witness format-driven results). -/
def autoNone : List Char → Option DT := fun _ => none

/-- A string ends, just before `rest`, in a nonempty run of digits. -/
def EndsDigits (c rest : List Char) : Prop :=
  ∃ p ds, c = p ++ ds ++ rest ∧ ds ≠ [] ∧ ∀ x ∈ ds, x.isDigit = true

/-- Sign of a Python float literal: one optional leading `-` or `+`. -/
def parseSign (c : List Char) : Bool × List Char :=
  match c with
  | [] => (false, [])
  | a :: r =>
    if a = '-' then (true, r)
    else if a = '+' then (false, r)
    else (false, a :: r)

/-- Kernel-evaluable `(10 : ℚ) ^ n` (the library power on `ℚ` does not
reduce inside `decide`). -/
def powNat10 : Nat → ℚ
  | 0 => 1
  | n + 1 => 10 * powNat10 n

/-- Kernel-evaluable `(10 : ℚ) ^ e` for an integer exponent. -/
def pow10 : Int → ℚ
  | Int.ofNat n => powNat10 n
  | Int.negSucc n => 1 / powNat10 (n + 1)

/-- Mantissa of a Python float literal: digits with at most one decimal
point and at least one digit; returns its exact decimal value. -/
def parseMantissa (c : List Char) : Option (ℚ × List Char) :=
  match c.dropWhile Char.isDigit with
  | [] =>
    if (c.takeWhile Char.isDigit) = [] then none
    else some ((digitsVal (c.takeWhile Char.isDigit) : ℚ), [])
  | a :: r2 =>
    if a = '.' then
      if (c.takeWhile Char.isDigit) = [] ∧ (r2.takeWhile Char.isDigit) = []
      then none
      else some ((digitsVal (c.takeWhile Char.isDigit) : ℚ) +
        (digitsVal (r2.takeWhile Char.isDigit) : ℚ) /
          powNat10 (r2.takeWhile Char.isDigit).length,
        r2.dropWhile Char.isDigit)
    else
      if (c.takeWhile Char.isDigit) = [] then none
      else some ((digitsVal (c.takeWhile Char.isDigit) : ℚ), a :: r2)

/-- Optional exponent part `e[±]digits` of a Python float literal. -/
def parseExpPart (c : List Char) : Option (Int × List Char) :=
  match c with
  | [] => some (0, [])
  | a :: r =>
    if a = 'e' ∨ a = 'E' then
      match r with
      | [] => none
      | b :: r2 =>
        if b = '-' then
          if (r2.takeWhile Char.isDigit) = [] then none
          else some (-(digitsVal (r2.takeWhile Char.isDigit) : Int),
            r2.dropWhile Char.isDigit)
        else if b = '+' then
          if (r2.takeWhile Char.isDigit) = [] then none
          else some ((digitsVal (r2.takeWhile Char.isDigit) : Int),
            r2.dropWhile Char.isDigit)
        else
          if ((b :: r2).takeWhile Char.isDigit) = [] then none
          else some ((digitsVal ((b :: r2).takeWhile Char.isDigit) : Int),
            (b :: r2).dropWhile Char.isDigit)
    else some (0, a :: r)

/-- `float(s)` on a decimal literal (exact value in `ℚ`): optional sign,
mantissa, optional exponent, nothing left over; failures are `none`,
matching `pd.to_numeric(errors='coerce')` null results. -/
def parseFloatLit (c : List Char) : Option ℚ :=
  (parseMantissa (parseSign c).2).bind fun mr =>
    (parseExpPart mr.2).bind fun er =>
      if er.2 = [] then
        some ((if (parseSign c).1 then -mr.1 else mr.1) * pow10 er.1)
      else none

/-- The regex step `.str.replace(r'[^\d.,-]', '', regex=True)` of
`clean_numeric_column`: keep only digits, point, comma and minus. -/
def keepNumericChars (s : List Char) : List Char :=
  s.filter fun c => c.isDigit || c = '.' || c = ',' || c = '-'

/-- The step `.str.replace(',', '.')` of `clean_numeric_column`. -/
def commaToDot (s : List Char) : List Char :=
  s.map fun c => if c = ',' then '.' else c

/-- `clean_numeric_column` (utils.py) at a single cell: strip characters
other than digit, point, comma, minus; replace commas by points; coerce
with `pd.to_numeric(errors='coerce')`. -/
def clean_numeric_column (s : List Char) : Option ℚ :=
  parseFloatLit (commaToDot (keepNumericChars s))

/-- `pd.to_numeric(errors='coerce')` on a raw string cell, as applied
directly to the numeric columns by the load pipeline in data_loader.py. -/
def pd_to_numeric (s : List Char) : Option ℚ :=
  parseFloatLit (pyStrip s)

/-- A table cell: raw text as loaded, or the result of a column-wise
date/numeric coercion. -/
inductive CellVal
  | raw (s : List Char)
  | date (d : Option DT)
  | num (q : Option ℚ)
deriving DecidableEq

/-- A data frame, modelled as a list of labelled columns. -/
structure Table where
  cols : List (String × List CellVal)
deriving DecidableEq

/-- The column labels of a table (`df.columns`). -/
def colNames (t : Table) : List String := t.cols.map Prod.fst

/-- `expected_columns` of `load_eventos_from_filelike` (data_loader.py). -/
def eventosExpectedColumns : List String :=
  ["id", "Tipo", "Vigilante", "Fecha", "Fecha UTC", "Zona monitoreo",
   "Pared", "Este", "Norte", "Cota", "Alerta de Seguridad Asociada",
   "Tiempo de Activación (h)", "Altura Banco (m)", "Altura Falla (m)",
   "Desplazamiento Acumulado (mm)", "Velocidad Promedio (mm/h)",
   "Velocidad Máxima Últimas 12hrs. (mm/h)",
   "Velocidad Anterior a Velocidad Máxima (mm/h)",
   "Volumen (ton)", "Detectado por Sistema", "Radar Principal",
   "Mecanismos falla", "Fotografía después del evento",
   "Gráfico de desplazamientos Vs. tiempo"]

/-- `expected_columns` of `load_alertas_from_filelike` (data_loader.py). -/
def alertasExpectedColumns : List String :=
  ["id", "Estatus", "Vigilante", "Fecha Declarada", "Fecha Declarada UTC",
   "Evento", "Comportamiento o Velocidad", "Nivel de Exposición",
   "Versión Original", "Zona de Monitoreo", "Localización General",
   "Pared", "Este", "Norte", "Cota", "Observaciones", "Estado",
   "Fecha de Cierre", "Responsable de Cierre", "Geotécnico Operativo",
   "Notificación Telefónica", "Notificación por Correo",
   "Desplazamiento Últimas 12 hrs. (mm)",
   "Velocidad Promedio Últimas 12 hrs. (mm/h)",
   "Velocidad Máxima Últimas 12 hrs. (mm/h)"]

/-- `df[col] = f(df[col])`: apply a per-cell transform to every column
with a matching label; absent labels leave the table unchanged. -/
def mapCol (t : Table) (name : String) (f : CellVal → CellVal) : Table :=
  ⟨t.cols.map fun p => if p.1 = name then (p.1, p.2.map f) else p⟩

/-- `parse_date_flexible` applied to one cell of a date column. -/
def parseDateCell (auto : List Char → Option DT) : CellVal → CellVal
  | CellVal.raw s => CellVal.date (parse_date_flexible auto s)
  | v => v

/-- `pd.to_numeric(errors='coerce')` applied to one cell. -/
def toNumericCell : CellVal → CellVal
  | CellVal.raw s => CellVal.num (pd_to_numeric s)
  | v => v

/-- Date columns of the event loader. -/
def eventosDateCols : List String := ["Fecha", "Fecha UTC"]

/-- `numeric_columns` of the event loader. -/
def eventosNumericCols : List String :=
  ["Este", "Norte", "Cota", "Altura Banco (m)", "Altura Falla (m)",
   "Desplazamiento Acumulado (mm)", "Velocidad Promedio (mm/h)",
   "Volumen (ton)"]

/-- `date_columns` of the alert loader. -/
def alertasDateCols : List String :=
  ["Fecha Declarada", "Fecha Declarada UTC", "Fecha de Cierre"]

/-- `numeric_columns` of the alert loader. -/
def alertasNumericCols : List String :=
  ["Este", "Norte", "Cota", "Desplazamiento Últimas 12 hrs. (mm)",
   "Velocidad Promedio Últimas 12 hrs. (mm/h)",
   "Velocidad Máxima Últimas 12 hrs. (mm/h)"]

/-- Body of `load_eventos_from_filelike` after reading: compute the
missing-critical-columns warning (first 10 expected labels), parse the
date columns present, coerce the numeric columns present. -/
def processEventos (auto : List Char → Option DT) (t : Table) :
    Table × List String :=
  (eventosNumericCols.foldl (fun acc c => mapCol acc c toNumericCell)
     (eventosDateCols.foldl
       (fun acc c => mapCol acc c (parseDateCell auto)) t),
   (eventosExpectedColumns.take 10).filter
     (fun c => !((colNames t).contains c)))

/-- Body of `load_alertas_from_filelike` after reading (same shape as the
event pipeline with the alert schema). -/
def processAlertas (auto : List Char → Option DT) (t : Table) :
    Table × List String :=
  (alertasNumericCols.foldl (fun acc c => mapCol acc c toNumericCell)
     (alertasDateCols.foldl
       (fun acc c => mapCol acc c (parseDateCell auto)) t),
   (alertasExpectedColumns.take 10).filter
     (fun c => !((colNames t).contains c)))

/-- Extensions accepted by both upload loaders. -/
def supportedTabularExts : List String := [".xlsx", ".xls", ".csv", ".txt"]

/-- An uploaded file: its lower-cased extension and its tabular content
(the Excel/CSV/TXT readers are the external readers producing the table). -/
structure Upload where
  ext : String
  table : Table

/-- `load_eventos_from_filelike`: unsupported extensions produce a
user-facing error and `None`; otherwise the table is processed and the
missing-critical-columns warning is logged (second component). -/
def load_eventos_from_filelike (auto : List Char → Option DT)
    (u : Upload) : Option Table × List String :=
  if supportedTabularExts.contains u.ext then
    (some (processEventos auto u.table).1, (processEventos auto u.table).2)
  else (none, [])

/-- `load_alertas_from_filelike`, same control flow as the event loader. -/
def load_alertas_from_filelike (auto : List Char → Option DT)
    (u : Upload) : Option Table × List String :=
  if supportedTabularExts.contains u.ext then
    (some (processAlertas auto u.table).1, (processAlertas auto u.table).2)
  else (none, [])

/-- A sample upload whose table misses the critical column
`Zona monitoreo` (and most others). -/
def eventosSampleTable : Table :=
  ⟨[("id", [CellVal.raw ("2025.1".toList)]),
    ("Tipo", [CellVal.raw ("Derrumbe".toList)]),
    ("Fecha", [CellVal.raw ("07/07/2025 14:30".toList)]),
    ("Este", [CellVal.raw ("12,5".toList)])]⟩

/-- Outcome of one step of the interactive flow: `st.stop` after an error
message, or continuation. -/
inductive FlowStep
  | halted (msg : String)
  | running
deriving DecidableEq

/-- The upload gate of `main` (app.py lines 77-86): halt with an error if
either upload is missing, then load both files and halt if either load
returned `None`. -/
def mainUploadGate (auto : List Char → Option DT)
    (ev al : Option Upload) : FlowStep :=
  match ev, al with
  | some e, some a =>
    match (load_eventos_from_filelike auto e).1,
        (load_alertas_from_filelike auto a).1 with
    | some _, some _ => FlowStep.running
    | _, _ => FlowStep.halted
        "❌ Error al cargar los archivos subidos. Verifica el formato y las columnas requeridas"
  | _, _ => FlowStep.halted
      "Debes subir ambos archivos: Eventos y Alertas (Excel/CSV/TXT)"

/-- A 3-D vertex with exact coordinates (float bit patterns compare by
exact equality in `np.unique`, so `ℚ` coordinates model them faithfully). -/
abbrev V3 := ℚ × ℚ × ℚ

/-- One triangle of the raw STL soup (one row of `mesh.vectors`). -/
abbrev Tri := V3 × V3 × V3

/-- `self.mesh.vectors.reshape(-1, 3)`: the triangle corners in order. -/
def flattenTris : List Tri → List V3
  | [] => []
  | t :: r => t.1 :: t.2.1 :: t.2.2 :: flattenTris r

/-- Lexicographic row order used by `np.unique(..., axis=0)`. -/
def v3le (a b : V3) : Prop :=
  a.1 < b.1 ∨ (a.1 = b.1 ∧
    (a.2.1 < b.2.1 ∨ (a.2.1 = b.2.1 ∧ a.2.2 ≤ b.2.2)))

instance : DecidableRel v3le := fun a b => by unfold v3le; infer_instance

/-- `np.unique(triangles, axis=0)`: sorted distinct corner rows
(`vertices_unique` in `STLLoader._build_geometry`). -/
def verticesUnique (ts : List Tri) : List V3 :=
  List.insertionSort v3le (flattenTris ts).dedup

/-- The `return_inverse` index of the `k`-th corner into the unique rows
(`inverse_idx` in `_build_geometry`). -/
def inverseIdx (ts : List Tri) (k : Nat) : Nat :=
  @List.indexOf V3 instBEqOfDecidableEq
    ((flattenTris ts).getD k (0, 0, 0)) (verticesUnique ts)

/-- `inverse_idx.reshape(-1, 3)`: one vertex-index triple per triangle
(`self.faces`). -/
def stlFaces (ts : List Tri) : List (Nat × Nat × Nat) :=
  (List.range ts.length).map fun j =>
    (inverseIdx ts (3 * j), inverseIdx ts (3 * j + 1),
      inverseIdx ts (3 * j + 2))

/-- Two triangles sharing an edge: six raw corners, four distinct. -/
def stlSampleTris : List Tri :=
  [((0, 0, 0), (1, 0, 0), (0, 1, 0)), ((0, 0, 0), (1, 0, 0), (1, 1, 0))]

/-- One line of the exported OBJ text: a vertex line `v x y z` or a face
line `f i j k` (the `%.6f` textual float formatting of coordinates is not
modelled; the line structure and counts are). -/
inductive ObjLine
  | vline (x y z : ℚ)
  | fline (i j k : Nat)
deriving DecidableEq

/-- `STLLoader.export_to_obj`: recompute the unique vertices and inverse
indices from the raw soup, emit one `v` line per unique vertex, then one
`f` line per face with 1-based indices. -/
def export_to_obj (ts : List Tri) : List ObjLine :=
  (verticesUnique ts).map (fun p => ObjLine.vline p.1 p.2.1 p.2.2) ++
    (stlFaces ts).map
      (fun f => ObjLine.fline (f.1 + 1) (f.2.1 + 1) (f.2.2 + 1))

/-- Re-parsing: is this a `v x y z` line? -/
def isVLine : ObjLine → Bool
  | ObjLine.vline _ _ _ => true
  | ObjLine.fline _ _ _ => false

/-- Re-parsing: is this an `f i j k` line? -/
def isFLine : ObjLine → Bool
  | ObjLine.vline _ _ _ => false
  | ObjLine.fline _ _ _ => true

/-- The counts reported by `STLLoader.get_summary` for a loaded mesh
(`vertices_count`, `faces_count` from `_build_geometry`). -/
structure StlSummary where
  vertices_count : Nat
  faces_count : Nat
deriving DecidableEq

/-- `get_summary` of `STLLoader`, restricted to the counted fields. -/
def stl_get_summary (ts : List Tri) : StlSummary :=
  ⟨(verticesUnique ts).length, (stlFaces ts).length⟩

/-- A model-space entity of a parsed DXF document, carrying the fields the
extractors read (`ezdxf`, the external parser, produces these). -/
inductive DxfEntity
  | line (layer : String) (sx sy sz ex ey ez : ℚ) (color : Int)
  | lwpolyline (layer : String) (pts : List (ℚ × ℚ)) (closed : Bool)
      (color : Int)
  | polyline3d (layer : String) (pts : List (ℚ × ℚ × ℚ)) (closed : Bool)
      (color : Int)
  | circle (layer : String) (cx cy cz r : ℚ) (color : Int)
  | text (layer : String) (content : List Char) (x y z : ℚ)
      (height rotation : ℚ) (color : Int)
  | mtext (layer : String) (content : List Char) (x y z : ℚ)
      (height rotation : ℚ) (color : Int)
deriving DecidableEq

/-- A row of the lines table (`extract_lines`); the constant `type` column
and the float `length` column (a square root) are not modelled — no claim
reads them. -/
structure LineRow where
  layer : String
  start_x : ℚ
  start_y : ℚ
  start_z : ℚ
  end_x : ℚ
  end_y : ℚ
  end_z : ℚ
  color : Int
deriving DecidableEq

/-- A row of the polylines table (`extract_polylines`); `points` keeps the
Python heterogeneous `[x, y]` / `[x, y, z]` lists. -/
structure PolyRow where
  layer : String
  points : List (List ℚ)
  closed : Bool
  color : Int
  vertices_count : Nat
deriving DecidableEq

/-- A row of the circles table (`extract_circles`). -/
structure CircleRow where
  layer : String
  center_x : ℚ
  center_y : ℚ
  center_z : ℚ
  radius : ℚ
  color : Int
  area : ℚ
deriving DecidableEq

/-- A row of the text table (`extract_text`); `multiline` distinguishes the
MTEXT pass from the TEXT pass. -/
structure TextRow where
  layer : String
  content : List Char
  x : ℚ
  y : ℚ
  z : ℚ
  height : ℚ
  rotation : ℚ
  color : Int
  multiline : Bool
deriving DecidableEq

/-- `np.pi` as the exact rational value of its IEEE-754 double. -/
def piQ : ℚ := 884279719003555 / 281474976710656

/-- The filter `if selected_layers and layer_name not in selected_layers:
continue` — both `None` and the empty list are falsy and disable
filtering. -/
def layerSelected (sel : Option (List String)) (layer : String) : Bool :=
  match sel with
  | none => true
  | some ls => ls.isEmpty || ls.contains layer

/-- `DXFLoader.extract_lines`: one row per `LINE` entity on a selected
layer, in document order. -/
def extract_lines (doc : List DxfEntity) (sel : Option (List String)) :
    List LineRow :=
  doc.filterMap fun e =>
    match e with
    | DxfEntity.line layer sx sy sz ex ey ez color =>
      if layerSelected sel layer then
        some ⟨layer, sx, sy, sz, ex, ey, ez, color⟩
      else none
    | _ => none

/-- `DXFLoader.extract_polylines`: a pass over `LWPOLYLINE` entities then a
pass over `POLYLINE` entities; rows require at least two points. -/
def extract_polylines (doc : List DxfEntity) (sel : Option (List String)) :
    List PolyRow :=
  (doc.filterMap fun e =>
    match e with
    | DxfEntity.lwpolyline layer pts closed color =>
      if layerSelected sel layer ∧ 2 ≤ pts.length then
        some ⟨layer, pts.map (fun p => [p.1, p.2]), closed, color,
          pts.length⟩
      else none
    | _ => none) ++
  (doc.filterMap fun e =>
    match e with
    | DxfEntity.polyline3d layer pts closed color =>
      if layerSelected sel layer ∧ 2 ≤ pts.length then
        some ⟨layer, pts.map (fun p => [p.1, p.2.1, p.2.2]), closed, color,
          pts.length⟩
      else none
    | _ => none)

/-- `DXFLoader.extract_circles`: one row per `CIRCLE` entity on a selected
layer, with computed area `np.pi * radius ** 2`. -/
def extract_circles (doc : List DxfEntity) (sel : Option (List String)) :
    List CircleRow :=
  doc.filterMap fun e =>
    match e with
    | DxfEntity.circle layer cx cy cz r color =>
      if layerSelected sel layer then
        some ⟨layer, cx, cy, cz, r, color, piQ * r ^ 2⟩
      else none
    | _ => none

/-- `DXFLoader.extract_text`: a pass over `TEXT` entities then a pass over
`MTEXT` entities. -/
def extract_text (doc : List DxfEntity) (sel : Option (List String)) :
    List TextRow :=
  (doc.filterMap fun e =>
    match e with
    | DxfEntity.text layer content x y z height rotation color =>
      if layerSelected sel layer then
        some ⟨layer, content, x, y, z, height, rotation, color, false⟩
      else none
    | _ => none) ++
  (doc.filterMap fun e =>
    match e with
    | DxfEntity.mtext layer content x y z height rotation color =>
      if layerSelected sel layer then
        some ⟨layer, content, x, y, z, height, rotation, color, true⟩
      else none
    | _ => none)

/-- Python `min` over a list (`None` on empty). -/
def listMin : List ℚ → Option ℚ
  | [] => none
  | a :: r => some (r.foldl min a)

/-- Python `max` over a list (`None` on empty). -/
def listMax : List ℚ → Option ℚ
  | [] => none
  | a :: r => some (r.foldl max a)

/-- The `all_x` list that `get_drawing_bounds` accumulates: line start/end
x, circle `center ± radius`, polyline points' first coordinate. TEXT and
MTEXT entities are never visited. -/
def boundsXs (doc : List DxfEntity) : List ℚ :=
  ((extract_lines doc none).map (fun r => r.start_x) ++
    (extract_lines doc none).map (fun r => r.end_x)) ++
  ((extract_circles doc none).bind
    (fun c => [c.center_x - c.radius, c.center_x + c.radius])) ++
  ((extract_polylines doc none).bind
    (fun p => p.points.filterMap (fun pt =>
      match pt with
      | x0 :: _ :: _ => some x0
      | _ => none)))

/-- The `all_y` list of `get_drawing_bounds`. -/
def boundsYs (doc : List DxfEntity) : List ℚ :=
  ((extract_lines doc none).map (fun r => r.start_y) ++
    (extract_lines doc none).map (fun r => r.end_y)) ++
  ((extract_circles doc none).bind
    (fun c => [c.center_y - c.radius, c.center_y + c.radius])) ++
  ((extract_polylines doc none).bind
    (fun p => p.points.filterMap (fun pt =>
      match pt with
      | _ :: y0 :: _ => some y0
      | _ => none)))

/-- `DXFLoader.get_drawing_bounds`: `(min_x, min_y, max_x, max_y)` over the
collected coordinates, `None` when nothing was collected. -/
def get_drawing_bounds (doc : List DxfEntity) : Option (ℚ × ℚ × ℚ × ℚ) :=
  match listMin (boundsXs doc), listMin (boundsYs doc),
      listMax (boundsXs doc), listMax (boundsYs doc) with
  | some a, some b, some c, some d => some (a, b, c, d)
  | _, _, _, _ => none

/-- A line near the origin plus a TEXT entity far away. -/
def dxfSampleDoc : List DxfEntity :=
  [DxfEntity.line "L" 0 0 0 1 1 0 256,
   DxfEntity.text "T" ("far".toList) 100 100 0 1 0 256]

/-- The line-only document used to witness the amended bounds property. -/
def dxfLineOnlyDoc : List DxfEntity := [DxfEntity.line "L" 0 0 0 1 1 0 256]

/-- The single extracted row of `dxfLineOnlyDoc`. -/
def dxfLineRow : LineRow := ⟨"L", 0, 0, 0, 1, 1, 0, 256⟩

/-- Modelled from the spec: no categorical normalizer exists under the
repository's source tree; spec §4.4 describes a normalizer that takes a
mapping of recognized spelling/case variants to a canonical token,
replaces mapped values, and passes unmatched values through unchanged. -/
def normalizeCategorical (mapping : List (String × String)) (x : String) :
    String :=
  match mapping.lookup x with
  | some canon => canon
  | none => x

/-- Modelled from the spec: the variant mapping for the boolean-like
`Detectado por Sistema` field. -/
def detectedBySystemMapping : List (String × String) :=
  [("Si", "Sí"), ("SI", "Sí"), ("yes", "Sí"), ("NO", "No")]

/-- Modelled from the spec: the variant mapping for status fields. -/
def statusMapping : List (String × String) :=
  [("ABIERTO", "Abierto"), ("Open", "Abierto")]

/-- The attribute names defined on `STLLoader` (its `__init__` fields and
its methods in stl_loader.py). -/
def stlLoaderAttrs : List String :=
  ["mesh", "vertices", "faces", "bounds", "load_stl_file",
   "load_stl_from_bytes", "load_stl_from_upload", "export_to_obj",
   "_build_geometry", "get_summary"]

/-- Outcome of a Python attribute invocation: the call's result, or an
`AttributeError` naming the missing attribute. -/
inductive PyCallResult (α : Type)
  | ok (a : α)
  | attrError (name : String)
deriving DecidableEq

/-- `getattr(obj, name)()`: `AttributeError` when `name` is not among the
object's attributes, otherwise the bound call's result. -/
def getattrCall {α : Type} (attrs : List String) (name : String)
    (call : Unit → α) : PyCallResult α :=
  if attrs.contains name then PyCallResult.ok (call ())
  else PyCallResult.attrError name

/-- The OBJ download step of app.py line 627,
`obj_str = stl_loader.export_as_obj()`, against the loaded mesh. -/
def appObjDownloadStep (ts : List Tri) : PyCallResult (List ObjLine) :=
  getattrCall stlLoaderAttrs "export_as_obj" (fun _ => export_to_obj ts)

theorem endsDigits_mono {c1 c rest : List Char} (p : List Char)
    (hc : c = p ++ c1) (h : EndsDigits c1 rest) : EndsDigits c rest := by
  obtain ⟨q, ds, hq, hne, hdig⟩ := h
  exact ⟨p ++ q, ds, by simp [hc, hq], hne, hdig⟩

theorem parseNumField_eq (lo hi minLen maxLen : Nat) {c : List Char}
    {pr : Nat × List Char}
    (h : parseNumField lo hi minLen maxLen c = some pr) :
    c = c.takeWhile Char.isDigit ++ pr.2 ∧
      minLen ≤ (c.takeWhile Char.isDigit).length := by
  unfold parseNumField at h
  split at h
  · rename_i hcond
    injection h with h2
    constructor
    · rw [← h2]
      exact (List.takeWhile_append_dropWhile Char.isDigit c).symm
    · exact hcond.1
  · exact absurd h (by simp)

theorem parseNumField_endsDigits (lo hi minLen maxLen : Nat)
    {c : List Char} {pr : Nat × List Char}
    (hm : 1 ≤ minLen)
    (h : parseNumField lo hi minLen maxLen c = some pr) :
    EndsDigits c pr.2 := by
  obtain ⟨hc, hlen⟩ := parseNumField_eq lo hi minLen maxLen h
  refine ⟨[], c.takeWhile Char.isDigit, by simpa using hc, ?_, ?_⟩
  · intro hnil
    rw [hnil] at hlen
    simp at hlen
    omega
  · intro x hx
    exact List.mem_takeWhile_imp hx

theorem parseNumField_head_digit (lo hi minLen maxLen : Nat)
    {c : List Char} {pr : Nat × List Char}
    (hm : 1 ≤ minLen)
    (h : parseNumField lo hi minLen maxLen c = some pr) :
    ∃ a t, c = a :: t ∧ a.isDigit = true := by
  obtain ⟨hc, hlen⟩ := parseNumField_eq lo hi minLen maxLen h
  cases hd : c.takeWhile Char.isDigit with
  | nil => rw [hd] at hlen; simp at hlen; omega
  | cons a t =>
    refine ⟨a, t ++ pr.2, ?_, ?_⟩
    · rw [hc, hd]; simp
    · exact List.mem_takeWhile_imp
        (by rw [hd]; exact List.mem_cons_self a t)

theorem parseLitChar_eq {ch : Char} {c rest : List Char}
    (h : parseLitChar ch c = some rest) : c = ch :: rest := by
  cases c with
  | nil => exact absurd h (by simp [parseLitChar])
  | cons a t =>
    simp only [parseLitChar] at h
    split at h
    · rename_i ha
      injection h with h2
      rw [ha, h2]
    · exact absurd h (by simp)

theorem parseSpaces1_eq {c rest : List Char}
    (h : parseSpaces1 c = some rest) : c = c.takeWhile isPySpace ++ rest := by
  unfold parseSpaces1 at h
  split at h
  · injection h with h2
    rw [← h2]
    exact (List.takeWhile_append_dropWhile isPySpace c).symm
  · exact absurd h (by simp)

theorem endsDigits_trans {c mid : List Char}
    (h1 : EndsDigits c mid) (h2 : EndsDigits mid []) : EndsDigits c [] := by
  obtain ⟨p, ds, hp, hne, hdig⟩ := h1
  obtain ⟨p2, ds2, hp2, hne2, hdig2⟩ := h2
  exact ⟨p ++ ds ++ p2, ds2, by simp [hp, hp2], hne2, hdig2⟩

theorem matchDMY_endsDigits {sep : Char} {c : List Char}
    {r : Nat × Nat × Nat × List Char} (h : matchDMY sep c = some r) :
    EndsDigits c r.2.2.2 ∧ ∃ a t, c = a :: t ∧ a.isDigit = true := by
  unfold matchDMY at h
  simp only [Option.bind_eq_some, Option.map_eq_some'] at h
  obtain ⟨dp, h1, c2, h2, mp, h3, c4, h4, yp, h5, heq⟩ := h
  have hrest : yp.2 = r.2.2.2 := congrArg (fun z => z.2.2.2) heq
  constructor
  · have e5 : EndsDigits c4 yp.2 :=
      parseNumField_endsDigits 0 9999 4 4 (by omega) h5
    have e4 : EndsDigits mp.2 yp.2 :=
      endsDigits_mono [sep] (parseLitChar_eq h4) e5
    have e3 : EndsDigits c2 yp.2 :=
      endsDigits_mono _ (parseNumField_eq 1 12 1 2 h3).1 e4
    have e2 : EndsDigits dp.2 yp.2 :=
      endsDigits_mono [sep] (parseLitChar_eq h2) e3
    have e1 : EndsDigits c yp.2 :=
      endsDigits_mono _ (parseNumField_eq 1 31 1 2 h1).1 e2
    exact hrest ▸ e1
  · exact parseNumField_head_digit 1 31 1 2 (by omega) h1

theorem matchHM_endsDigits {c : List Char} {q : Nat × Nat × List Char}
    (hp : matchHM c = some q) : EndsDigits c q.2.2 := by
  unfold matchHM at hp
  simp only [Option.bind_eq_some, Option.map_eq_some'] at hp
  obtain ⟨hp1, h1, c2, h2, mp, h3, heq⟩ := hp
  have hrest : mp.2 = q.2.2 := congrArg (fun z => z.2.2) heq
  have e3 : EndsDigits c2 mp.2 :=
    parseNumField_endsDigits 0 59 1 2 (by omega) h3
  have e2 : EndsDigits hp1.2 mp.2 :=
    endsDigits_mono [':'] (parseLitChar_eq h2) e3
  have e1 : EndsDigits c mp.2 :=
    endsDigits_mono _ (parseNumField_eq 0 23 1 2 h1).1 e2
  exact hrest ▸ e1

theorem matchFmt_shape {f : DateFmt} {c : List Char} {t : DT}
    (h : matchFmt f c = some t) :
    EndsDigits c [] ∧ ∃ a r, c = a :: r ∧ a.isDigit = true := by
  unfold matchFmt at h
  simp only [Option.bind_eq_some] at h
  obtain ⟨r, hdmy, hrest⟩ := h
  obtain ⟨hed, hhead⟩ := matchDMY_endsDigits hdmy
  refine ⟨?_, hhead⟩
  split at hrest
  · simp only [Option.bind_eq_some] at hrest
    obtain ⟨rest1, hs, q, hq, hfin⟩ := hrest
    split at hfin
    · rename_i hcond
      have hq2 : q.2.2 = [] := hcond.1
      have eHM : EndsDigits rest1 [] := hq2 ▸ matchHM_endsDigits hq
      have eRest : EndsDigits r.2.2.2 [] :=
        endsDigits_mono _ (parseSpaces1_eq hs) eHM
      exact endsDigits_trans hed eRest
    · exact absurd hfin (by simp)
  · split at hrest
    · rename_i hcond
      exact hcond.1 ▸ hed
    · exact absurd hrest (by simp)

theorem isPySpace_false_of_digit {a : Char} (h : a.isDigit = true) :
    isPySpace a = false := by
  by_contra hc
  have h2 : isPySpace a = true := by
    cases he : isPySpace a
    · exact absurd he hc
    · rfl
  unfold isPySpace at h2
  simp only [Bool.or_eq_true, decide_eq_true_eq] at h2
  rcases h2 with ((((h2 | h2) | h2) | h2) | h2) | h2 <;> subst h2 <;>
    exact absurd h (by decide)

theorem dropWhile_eq_self_of_head {p : Char → Bool} {s : List Char}
    (h : ∀ a t, s = a :: t → p a = false) : s.dropWhile p = s := by
  cases s with
  | nil => rfl
  | cons a t => simp [List.dropWhile_cons, h a t rfl]

theorem pyStrip_eq_self {s : List Char}
    (hhead : ∀ a t, s = a :: t → isPySpace a = false)
    (hlast : ∀ a, s.getLast? = some a → isPySpace a = false) :
    pyStrip s = s := by
  unfold pyStrip
  rw [dropWhile_eq_self_of_head hhead]
  have hrev : s.reverse.dropWhile isPySpace = s.reverse := by
    apply dropWhile_eq_self_of_head
    intro a t hat
    apply hlast
    rw [← List.head?_reverse, hat]
    rfl
  rw [hrev, List.reverse_reverse]

theorem cleanDate_eq_self_of_match {f : DateFmt} {s : List Char} {t : DT}
    (h : matchFmt f s = some t) : cleanDate s = s := by
  obtain ⟨⟨p, ds, hq, hne, hdig⟩, a, r, har, hadig⟩ := matchFmt_shape h
  have hlastdig : ∀ b, s.getLast? = some b → b.isDigit = true := by
    intro b hb
    have : s.getLast? = ds.getLast? := by
      rw [hq]
      simp only [List.append_nil]
      exact List.getLast?_append_of_ne_nil p hne
    rw [this] at hb
    have hmem : ds.getLast hne ∈ ds := List.getLast_mem hne
    rw [List.getLast?_eq_getLast_of_ne_nil hne] at hb
    have hbe : b = ds.getLast hne := by cases hb; rfl
    exact hbe ▸ hdig _ hmem
  have hstrip : pyStrip s = s := by
    apply pyStrip_eq_self
    · intro a2 t2 hat
      rw [hat] at har
      injection har with hh ht
      rw [hh]
      exact isPySpace_false_of_digit hadig
    · intro b hb
      exact isPySpace_false_of_digit (hlastdig b hb)
  unfold cleanDate
  rw [hstrip, har]
  simp [stripLeadNonDigit, hadig]

theorem foldl_formats_some (c : List Char) (l : List DateFmt) (d : DT) :
    l.foldl
      (fun r f => match r with
        | some x => some x
        | none => matchFmt f c)
      (some d) = some d := by
  induction l with
  | nil => rfl
  | cons f fs ih => exact ih

/-- C1: for every date string that matches one of the four candidate formats
(`%d/%m/%Y %H:%M`, `%d/%m/%Y`, `%d-%m-%Y %H:%M`, `%d-%m-%Y`),
`parse_date_flexible` returns the day-first calendar date/time produced by
the first format in list order that matches it, independently of the
automatic day-first fallback; in particular the result is deterministic for
the same raw string. -/
theorem parse_date_flexible_first_format_wins
    (auto : List Char → Option DT) (s : List Char) (i : Nat)
    (hi : i < formatsToTry.length) (t : DT)
    (hmatch : matchFmt (formatsToTry.get ⟨i, hi⟩) s = some t)
    (hearlier : ∀ j (hj : j < i),
      matchFmt (formatsToTry.get ⟨j, Nat.lt_trans hj hi⟩) s = none) :
    parse_date_flexible auto s = some t := by
  have hclean : cleanDate s = s := cleanDate_eq_self_of_match hmatch
  have hlen : formatsToTry.length = 4 := rfl
  unfold parse_date_flexible
  rw [hclean]
  suffices happ : applyFormats s = some t by rw [happ]
  unfold applyFormats
  have hi4 : i < 4 := hlen ▸ hi
  interval_cases i
  · have h0 : matchFmt DateFmt.slashHM s = some t := hmatch
    simp [formatsToTry, List.foldl, h0]
  · have h0 : matchFmt DateFmt.slashHM s = none := hearlier 0 (by omega)
    have h1 : matchFmt DateFmt.slashOnly s = some t := hmatch
    simp [formatsToTry, List.foldl, h0, h1]
  · have h0 : matchFmt DateFmt.slashHM s = none := hearlier 0 (by omega)
    have h1 : matchFmt DateFmt.slashOnly s = none := hearlier 1 (by omega)
    have h2 : matchFmt DateFmt.dashHM s = some t := hmatch
    simp [formatsToTry, List.foldl, h0, h1, h2]
  · have h0 : matchFmt DateFmt.slashHM s = none := hearlier 0 (by omega)
    have h1 : matchFmt DateFmt.slashOnly s = none := hearlier 1 (by omega)
    have h2 : matchFmt DateFmt.dashHM s = none := hearlier 2 (by omega)
    have h3 : matchFmt DateFmt.dashOnly s = some t := hmatch
    simp [formatsToTry, List.foldl, h0, h1, h2, h3]

/-- C1 witness: `"07/07/2025 14:30"` matches the first format and parses to
2025-07-07T14:30. -/
theorem parse_date_flexible_first_format_wins_witness :
    parse_date_flexible autoNone ("07/07/2025 14:30".toList) =
      some ⟨7, 7, 2025, 14, 30⟩ :=
  parse_date_flexible_first_format_wins autoNone _ 0 (by decide)
    ⟨7, 7, 2025, 14, 30⟩ (by decide)
    (fun j hj => absurd hj (Nat.not_lt_zero j))

theorem powNat10_eq (n : Nat) : powNat10 n = (10 : ℚ) ^ n := by
  induction n with
  | zero => rfl
  | succ k ih => rw [powNat10, ih, pow_succ]; ring

theorem takeWhile_digits_append {ds rest : List Char}
    (hd : ∀ c ∈ ds, c.isDigit = true) {x : Char} (hx : x.isDigit = false) :
    (ds ++ x :: rest).takeWhile Char.isDigit = ds ∧
      (ds ++ x :: rest).dropWhile Char.isDigit = x :: rest := by
  induction ds with
  | nil => simp [List.takeWhile_cons, List.dropWhile_cons, hx]
  | cons a t ih =>
    have ha : a.isDigit = true := hd a (by simp)
    have ht : ∀ c ∈ t, c.isDigit = true := fun c hc => hd c (by simp [hc])
    obtain ⟨ih1, ih2⟩ := ih ht
    simp [List.takeWhile_cons, List.dropWhile_cons, ha, ih1, ih2]

theorem parseSign_of_digit_head {s : List Char} {a : Char} {t : List Char}
    (hs : s = a :: t) (ha : a.isDigit = true) : parseSign s = (false, s) := by
  subst hs
  have h1 : a ≠ '-' := by intro he; rw [he] at ha; exact absurd ha (by decide)
  have h2 : a ≠ '+' := by intro he; rw [he] at ha; exact absurd ha (by decide)
  simp [parseSign, h1, h2]

theorem getLast_digit_append {s ds1 ds2 : List Char} {x : Char}
    (hs : s = ds1 ++ x :: ds2) (h2 : ds2 ≠ [])
    (hd2 : ∀ c ∈ ds2, c.isDigit = true) :
    ∀ b, s.getLast? = some b → b.isDigit = true := by
  intro b hb
  have hx : x :: ds2 ≠ [] := by simp
  rw [hs, List.getLast?_append_of_ne_nil ds1 hx] at hb
  have hc : x :: ds2 = [x] ++ ds2 := rfl
  rw [hc, List.getLast?_append_of_ne_nil [x] h2] at hb
  rw [List.getLast?_eq_getLast_of_ne_nil h2] at hb
  have hbe : b = ds2.getLast h2 := by cases hb; rfl
  exact hbe ▸ hd2 _ (List.getLast_mem h2)

theorem commaToDot_digits {l : List Char}
    (hd : ∀ c ∈ l, c.isDigit = true) : commaToDot l = l := by
  induction l with
  | nil => rfl
  | cons a t ih =>
    have ha : a ≠ ',' := by
      intro he
      have hdig := hd a (by simp)
      rw [he] at hdig
      exact absurd hdig (by decide)
    have ih2 := ih (fun c hc => hd c (by simp [hc]))
    simp only [commaToDot, List.map_cons] at ih2 ⊢
    rw [if_neg ha, ih2]

theorem clean_numeric_comma_value
    (ds1 ds2 : List Char)
    (h1 : ds1 ≠ []) (hd1 : ∀ c ∈ ds1, c.isDigit = true)
    (h2 : ds2 ≠ []) (hd2 : ∀ c ∈ ds2, c.isDigit = true) :
    clean_numeric_column (ds1 ++ ',' :: ds2) =
      some ((digitsVal ds1 : ℚ) + (digitsVal ds2 : ℚ) / 10 ^ ds2.length) ∧
    pd_to_numeric (ds1 ++ ',' :: ds2) = none := by
  obtain ⟨a, t, hs⟩ : ∃ a t, ds1 = a :: t := by
    cases ds1 with
    | nil => exact absurd rfl h1
    | cons a t => exact ⟨a, t, rfl⟩
  have ha : a.isDigit = true := hd1 a (by simp [hs])
  have hshape : ds1 ++ ',' :: ds2 = a :: (t ++ ',' :: ds2) := by simp [hs]
  have hshape2 : ds1 ++ '.' :: ds2 = a :: (t ++ '.' :: ds2) := by simp [hs]
  have htake2 : ds2.takeWhile Char.isDigit = ds2 :=
    List.takeWhile_eq_self_iff.mpr hd2
  have hdrop2 : ds2.dropWhile Char.isDigit = [] :=
    List.dropWhile_eq_nil_iff.mpr hd2
  constructor
  · have hkeep : keepNumericChars (ds1 ++ ',' :: ds2) = ds1 ++ ',' :: ds2 := by
      apply List.filter_eq_self.mpr
      intro c hc
      rcases List.mem_append.mp hc with hm | hm
      · simp [hd1 c hm]
      · rcases List.mem_cons.mp hm with hm2 | hm2
        · rw [hm2]; decide
        · simp [hd2 c hm2]
    have hdot : commaToDot (ds1 ++ ',' :: ds2) = ds1 ++ '.' :: ds2 := by
      unfold commaToDot
      rw [List.map_append]
      have hds1 : commaToDot ds1 = ds1 := commaToDot_digits hd1
      have hds2 : commaToDot ds2 = ds2 := commaToDot_digits hd2
      simp only [commaToDot] at hds1 hds2
      rw [hds1]
      simp [hds2]
    have hsign : parseSign (ds1 ++ '.' :: ds2) = (false, ds1 ++ '.' :: ds2) :=
      parseSign_of_digit_head hshape2 ha
    have hsplit := @takeWhile_digits_append ds1 ds2 hd1 '.'
      (show ('.').isDigit = false by decide)
    have hman : parseMantissa (ds1 ++ '.' :: ds2) =
        some ((digitsVal ds1 : ℚ) + (digitsVal ds2 : ℚ) /
          powNat10 ds2.length, []) := by
      unfold parseMantissa
      rw [hsplit.2, hsplit.1]
      simp [htake2, hdrop2, h1]
    unfold clean_numeric_column
    rw [hkeep, hdot]
    unfold parseFloatLit
    rw [hsign]
    rw [hman]
    simp [parseExpPart, pow10, powNat10_eq]
  · have hstrip : pyStrip (ds1 ++ ',' :: ds2) = ds1 ++ ',' :: ds2 := by
      apply pyStrip_eq_self
      · intro a2 t2 hat
        have hcmp : a :: (t ++ ',' :: ds2) = a2 :: t2 := hshape.symm.trans hat
        injection hcmp with hh _
        rw [← hh]
        exact isPySpace_false_of_digit ha
      · exact fun b hb =>
          isPySpace_false_of_digit (getLast_digit_append rfl h2 hd2 b hb)
    have hsign2 : parseSign (ds1 ++ ',' :: ds2) = (false, ds1 ++ ',' :: ds2) :=
      parseSign_of_digit_head hshape ha
    have hsplit2 := @takeWhile_digits_append ds1 ds2 hd1 ','
      (show (',').isDigit = false by decide)
    have hman2 : parseMantissa (ds1 ++ ',' :: ds2) =
        some ((digitsVal ds1 : ℚ), ',' :: ds2) := by
      unfold parseMantissa
      rw [hsplit2.2, hsplit2.1]
      simp [h1]
    have hexp : parseExpPart (',' :: ds2) = some (0, ',' :: ds2) := by
      have hne : ¬((',') = 'e' ∨ (',') = 'E') := by decide
      simp [parseExpPart, hne]
    unfold pd_to_numeric
    rw [hstrip]
    unfold parseFloatLit
    rw [hsign2]
    rw [hman2]
    simp [hexp]

/-- C2 counterexample: the load pipeline coerces its numeric columns with
plain `pd.to_numeric` (data_loader.py lines 308-313), under which the
comma-decimal string `"12,5"` becomes null instead of 12.5; the
comma-replacing cleaner `clean_numeric_column` exists in utils.py but the
pipeline never invokes it. -/
theorem pipeline_numeric_comma_counterexample :
    pd_to_numeric ("12,5".toList) = none ∧
    clean_numeric_column ("12,5".toList) = some (25 / 2) := by
  constructor
  · decide
  · have h := (clean_numeric_comma_value ("12".toList) ("5".toList)
      (by decide) (by decide) (by decide) (by decide)).1
    have h12 : digitsVal ("12".toList) = 12 := by decide
    have h5 : digitsVal ("5".toList) = 5 := by decide
    have hlen : ("5".toList).length = 1 := by decide
    have hsl : ("12,5".toList : List Char) = "12".toList ++ ',' :: "5".toList := by decide
    rw [hsl, h, h12, h5, hlen]
    simp only [Option.some.injEq]
    norm_num

/-- C2 (amended): `clean_numeric_column` turns every comma-decimal numeric
string `ds1 ++ "," ++ ds2` into the exact decimal value by stripping every
character that is not a digit, point, comma or minus and replacing the
comma with a point, returning null (never an error) on unparseable values;
the load pipeline itself, however, applies plain `pd.to_numeric`, under
which the same comma-decimal string is null. -/
theorem clean_numeric_column_comma_decimal
    (ds1 ds2 : List Char)
    (h1 : ds1 ≠ []) (hd1 : ∀ c ∈ ds1, c.isDigit = true)
    (h2 : ds2 ≠ []) (hd2 : ∀ c ∈ ds2, c.isDigit = true) :
    clean_numeric_column (ds1 ++ ',' :: ds2) =
      some ((digitsVal ds1 : ℚ) + (digitsVal ds2 : ℚ) / 10 ^ ds2.length) ∧
    pd_to_numeric (ds1 ++ ',' :: ds2) = none :=
  clean_numeric_comma_value ds1 ds2 h1 hd1 h2 hd2

/-- C2 witness: `"12,5"` cleans to 12.5 through `clean_numeric_column`
while the pipeline coercion `pd_to_numeric` nulls it. -/
theorem clean_numeric_column_comma_decimal_witness :
    clean_numeric_column ("12,5".toList) =
      some ((digitsVal ("12".toList) : ℚ) +
        (digitsVal ("5".toList) : ℚ) / 10 ^ ("5".toList).length) ∧
    pd_to_numeric ("12,5".toList) = none :=
  clean_numeric_column_comma_decimal ("12".toList) ("5".toList)
    (by decide) (by decide) (by decide) (by decide)

theorem colNames_mapCol (t : Table) (n : String) (f : CellVal → CellVal) :
    colNames (mapCol t n f) = colNames t := by
  obtain ⟨cs⟩ := t
  unfold colNames mapCol
  simp only [List.map_map]
  induction cs with
  | nil => rfl
  | cons p ps ih =>
    simp only [List.map_cons] at ih ⊢
    rw [ih]
    by_cases hp : p.1 = n
    · simp [Function.comp, hp]
    · simp [Function.comp, hp]

theorem colNames_foldl_mapCol (names : List String)
    (f : CellVal → CellVal) (t : Table) :
    colNames (names.foldl (fun acc c => mapCol acc c f) t) = colNames t := by
  induction names generalizing t with
  | nil => rfl
  | cons n ns ih => rw [List.foldl_cons, ih, colNames_mapCol]

/-- C3: for every input table, the event loader never rejects the table
for missing critical columns: the missing labels (any subset of the first
10 expected ones) are recorded as a warning, processing continues, and the
returned table keeps exactly the columns that were present. -/
theorem load_eventos_missing_columns_tolerated
    (auto : List Char → Option DT) (t : Table) :
    colNames (processEventos auto t).1 = colNames t ∧
    (processEventos auto t).2 = (eventosExpectedColumns.take 10).filter
      (fun c => !((colNames t).contains c)) ∧
    (∀ e : String, supportedTabularExts.contains e = true →
      load_eventos_from_filelike auto ⟨e, t⟩ =
        (some (processEventos auto t).1, (processEventos auto t).2)) := by
  refine ⟨?_, rfl, ?_⟩
  · unfold processEventos
    rw [colNames_foldl_mapCol, colNames_foldl_mapCol]
  · intro e he
    have hm : e ∈ supportedTabularExts := by simpa using he
    simp [load_eventos_from_filelike, hm]

/-- C3 witness: the sample table missing `Zona monitoreo` is still loaded
(non-null) with its columns intact and the missing labels recorded. -/
theorem load_eventos_missing_columns_tolerated_witness :
    (load_eventos_from_filelike autoNone ⟨".csv", eventosSampleTable⟩).1 =
      some (processEventos autoNone eventosSampleTable).1 ∧
    colNames (processEventos autoNone eventosSampleTable).1 =
      colNames eventosSampleTable ∧
    "Zona monitoreo" ∈ (processEventos autoNone eventosSampleTable).2 := by
  have h := load_eventos_missing_columns_tolerated autoNone eventosSampleTable
  refine ⟨?_, h.1, ?_⟩
  · rw [h.2.2 ".csv" (by decide)]
  · rw [h.2.1]
    decide

/-- C8 counterexample: with the events file provided and the alerts file
missing, the gate at app.py line 78 still halts the flow, so halting is
not restricted to the case where both required files are missing. -/
theorem halt_gate_counterexample :
    mainUploadGate autoNone (some ⟨".csv", eventosSampleTable⟩) none =
      FlowStep.halted
        "Debes subir ambos archivos: Eventos y Alertas (Excel/CSV/TXT)" ∧
    (some (⟨".csv", eventosSampleTable⟩ : Upload)) ≠ none := by
  constructor
  · rfl
  · simp

/-- C8 (amended): the interactive flow is halted with a user-visible
message whenever at least one of the two uploads is missing, and also when
both are provided but either file fails to load (unsupported extension);
it continues exactly when both files are provided and both load. -/
theorem halt_gate_characterization (auto : List Char → Option DT)
    (ev al : Option Upload) :
    mainUploadGate auto ev al = FlowStep.running ↔
      (∃ e a, ev = some e ∧ al = some a ∧
        (load_eventos_from_filelike auto e).1.isSome = true ∧
        (load_alertas_from_filelike auto a).1.isSome = true) := by
  cases ev with
  | none => cases al <;> simp [mainUploadGate]
  | some e =>
    cases al with
    | none => simp [mainUploadGate]
    | some a =>
      cases h1 : (load_eventos_from_filelike auto e).1 with
      | none => simp [mainUploadGate, h1]
      | some t1 =>
        cases h2 : (load_alertas_from_filelike auto a).1 with
        | none => simp [mainUploadGate, h1, h2]
        | some t2 => simp [mainUploadGate, h1, h2]

theorem flattenTris_length (ts : List Tri) :
    (flattenTris ts).length = 3 * ts.length := by
  induction ts with
  | nil => rfl
  | cons t r ih =>
    simp only [flattenTris, List.length_cons, ih]
    omega

theorem mem_verticesUnique {ts : List Tri} {a : V3} :
    a ∈ verticesUnique ts ↔ a ∈ flattenTris ts := by
  unfold verticesUnique
  rw [(List.perm_insertionSort v3le _).mem_iff, List.mem_dedup]

theorem verticesUnique_nodup (ts : List Tri) : (verticesUnique ts).Nodup :=
  ((List.perm_insertionSort v3le _).nodup_iff).mpr (List.nodup_dedup _)

theorem verticesUnique_length (ts : List Tri) :
    (verticesUnique ts).length = (flattenTris ts).dedup.length :=
  (List.perm_insertionSort v3le _).length_eq

theorem inverseIdx_spec {ts : List Tri} {k : Nat} {v : V3}
    (h : (flattenTris ts).get? k = some v) :
    inverseIdx ts k < (verticesUnique ts).length ∧
    (verticesUnique ts).get? (inverseIdx ts k) = some v := by
  have hv : v ∈ flattenTris ts := List.get?_mem h
  have hvu : v ∈ verticesUnique ts := mem_verticesUnique.mpr hv
  have hd : (flattenTris ts).getD k (0, 0, 0) = v := by
    rw [List.getD_eq_get?, h]
    rfl
  have hlt : @List.indexOf V3 instBEqOfDecidableEq v (verticesUnique ts) <
      (verticesUnique ts).length :=
    List.indexOf_lt_length.mpr hvu
  unfold inverseIdx
  rw [hd]
  exact ⟨hlt, by rw [List.get?_eq_get hlt, List.indexOf_get hlt]⟩

theorem dedup_length_lt {l : List V3} (h : ¬ l.Nodup) :
    l.dedup.length < l.length := by
  rcases Nat.lt_or_ge l.dedup.length l.length with hlt | hge
  · exact hlt
  · exfalso
    have hle : l.dedup.length ≤ l.length := (List.dedup_sublist l).length_le
    have heq2 : l.dedup = l :=
      (List.dedup_sublist l).eq_of_length (le_antisymm hle hge)
    exact h (heq2 ▸ List.nodup_dedup l)

theorem flattenTris_get {ts : List Tri} {j : Nat} {t : Tri}
    (h : ts.get? j = some t) :
    (flattenTris ts).get? (3 * j) = some t.1 ∧
    (flattenTris ts).get? (3 * j + 1) = some t.2.1 ∧
    (flattenTris ts).get? (3 * j + 2) = some t.2.2 := by
  induction ts generalizing j with
  | nil => simp at h
  | cons u r ih =>
    cases j with
    | zero =>
      have hu : u = t := by simpa using h
      subst hu
      exact ⟨rfl, rfl, rfl⟩
    | succ j2 =>
      have h2 : r.get? j2 = some t := by simpa using h
      obtain ⟨a1, a2, a3⟩ := ih h2
      refine ⟨?_, ?_, ?_⟩
      · have e : 3 * (j2 + 1) = 3 * j2 + 1 + 1 + 1 := by ring
        rw [e]
        show (u.1 :: u.2.1 :: u.2.2 :: flattenTris r).get?
          (3 * j2 + 1 + 1 + 1) = some t.1
        rw [List.get?_cons_succ, List.get?_cons_succ, List.get?_cons_succ]
        exact a1
      · have e : 3 * (j2 + 1) + 1 = 3 * j2 + 1 + 1 + 1 + 1 := by ring
        rw [e]
        show (u.1 :: u.2.1 :: u.2.2 :: flattenTris r).get?
          (3 * j2 + 1 + 1 + 1 + 1) = some t.2.1
        rw [List.get?_cons_succ, List.get?_cons_succ, List.get?_cons_succ]
        exact a2
      · have e : 3 * (j2 + 1) + 2 = 3 * j2 + 2 + 1 + 1 + 1 := by ring
        rw [e]
        show (u.1 :: u.2.1 :: u.2.2 :: flattenTris r).get?
          (3 * j2 + 2 + 1 + 1 + 1) = some t.2.2
        rw [List.get?_cons_succ, List.get?_cons_succ, List.get?_cons_succ]
        exact a3

theorem stlFaces_bounds {ts : List Tri} {f : Nat × Nat × Nat}
    (hf : f ∈ stlFaces ts) :
    f.1 < (verticesUnique ts).length ∧
    f.2.1 < (verticesUnique ts).length ∧
    f.2.2 < (verticesUnique ts).length := by
  obtain ⟨j, hj, hfe⟩ := List.mem_map.mp hf
  have hjl : j < ts.length := List.mem_range.mp hj
  obtain ⟨t, ht⟩ : ∃ t, ts.get? j = some t := by
    rw [List.get?_eq_get hjl]
    exact ⟨_, rfl⟩
  obtain ⟨g1, g2, g3⟩ := flattenTris_get ht
  subst hfe
  exact ⟨(inverseIdx_spec g1).1, (inverseIdx_spec g2).1,
    (inverseIdx_spec g3).1⟩

/-- C4: the geometry built by `STLLoader._build_geometry` deduplicates the
raw corners by exact coordinate equality (the unique-vertex list has no
duplicates and the same members as the soup), every face index is in range
of the unique-vertex list, the vertex at each face index equals the
corresponding original triangle corner, and a soup with exact duplicate
corners has strictly fewer unique vertices than raw corners. -/
theorem stl_build_geometry_invariants (ts : List Tri) :
    (verticesUnique ts).Nodup ∧
    (∀ a : V3, a ∈ verticesUnique ts ↔ a ∈ flattenTris ts) ∧
    (∀ k v, (flattenTris ts).get? k = some v →
      inverseIdx ts k < (verticesUnique ts).length ∧
      (verticesUnique ts).get? (inverseIdx ts k) = some v) ∧
    (∀ f ∈ stlFaces ts, f.1 < (verticesUnique ts).length ∧
      f.2.1 < (verticesUnique ts).length ∧
      f.2.2 < (verticesUnique ts).length) ∧
    (∀ j t, ts.get? j = some t →
      (verticesUnique ts).get? (inverseIdx ts (3 * j)) = some t.1 ∧
      (verticesUnique ts).get? (inverseIdx ts (3 * j + 1)) = some t.2.1 ∧
      (verticesUnique ts).get? (inverseIdx ts (3 * j + 2)) = some t.2.2) ∧
    (¬ (flattenTris ts).Nodup →
      (verticesUnique ts).length < (flattenTris ts).length) := by
  refine ⟨verticesUnique_nodup ts, fun a => mem_verticesUnique,
    fun k v h => inverseIdx_spec h, fun f hf => stlFaces_bounds hf, ?_, ?_⟩
  · intro j t ht
    obtain ⟨g1, g2, g3⟩ := flattenTris_get ht
    exact ⟨(inverseIdx_spec g1).2, (inverseIdx_spec g2).2,
      (inverseIdx_spec g3).2⟩
  · intro hdup
    rw [verticesUnique_length]
    exact dedup_length_lt hdup

/-- C4 witness: on the shared-edge sample the duplicate-corner hypothesis
holds and the unique-vertex count drops strictly below the corner count. -/
theorem stl_build_geometry_invariants_witness :
    (verticesUnique stlSampleTris).length <
      (flattenTris stlSampleTris).length :=
  (stl_build_geometry_invariants stlSampleTris).2.2.2.2.2 (by decide)

theorem export_filter_v (ts : List Tri) :
    (export_to_obj ts).filter isVLine =
      (verticesUnique ts).map (fun p => ObjLine.vline p.1 p.2.1 p.2.2) := by
  unfold export_to_obj
  rw [List.filter_append]
  have h1 : ((verticesUnique ts).map
      (fun p => ObjLine.vline p.1 p.2.1 p.2.2)).filter isVLine =
      (verticesUnique ts).map (fun p => ObjLine.vline p.1 p.2.1 p.2.2) := by
    apply List.filter_eq_self.mpr
    intro a ha
    obtain ⟨p, -, hpe⟩ := List.mem_map.mp ha
    rw [← hpe]
    rfl
  have h2 : ((stlFaces ts).map
      (fun f => ObjLine.fline (f.1 + 1) (f.2.1 + 1) (f.2.2 + 1))).filter
      isVLine = [] := by
    apply List.filter_eq_nil.mpr
    intro a ha
    obtain ⟨f, -, hfe⟩ := List.mem_map.mp ha
    rw [← hfe]
    simp [isVLine]
  rw [h1, h2, List.append_nil]

theorem export_filter_f (ts : List Tri) :
    (export_to_obj ts).filter isFLine =
      (stlFaces ts).map
        (fun f => ObjLine.fline (f.1 + 1) (f.2.1 + 1) (f.2.2 + 1)) := by
  unfold export_to_obj
  rw [List.filter_append]
  have h1 : ((verticesUnique ts).map
      (fun p => ObjLine.vline p.1 p.2.1 p.2.2)).filter isFLine = [] := by
    apply List.filter_eq_nil.mpr
    intro a ha
    obtain ⟨p, -, hpe⟩ := List.mem_map.mp ha
    rw [← hpe]
    simp [isFLine]
  have h2 : ((stlFaces ts).map
      (fun f => ObjLine.fline (f.1 + 1) (f.2.1 + 1) (f.2.2 + 1))).filter
      isFLine =
      (stlFaces ts).map
        (fun f => ObjLine.fline (f.1 + 1) (f.2.1 + 1) (f.2.2 + 1)) := by
    apply List.filter_eq_self.mpr
    intro a ha
    obtain ⟨f, -, hfe⟩ := List.mem_map.mp ha
    rw [← hfe]
    rfl
  rw [h1, h2, List.nil_append]

/-- C5: the OBJ export is exactly one `v` line per unique vertex followed
by one `f` line per face with 1-based in-range indices, so re-parsing the
OBJ line counts recovers the loaded mesh's `vertices_count` and
`faces_count` from `get_summary`. -/
theorem export_to_obj_roundtrip_counts (ts : List Tri) :
    ((export_to_obj ts).filter isVLine).length =
      (stl_get_summary ts).vertices_count ∧
    ((export_to_obj ts).filter isFLine).length =
      (stl_get_summary ts).faces_count ∧
    (stl_get_summary ts).faces_count = ts.length ∧
    export_to_obj ts =
      (export_to_obj ts).filter isVLine ++
        (export_to_obj ts).filter isFLine ∧
    (∀ i j k, ObjLine.fline i j k ∈ export_to_obj ts →
      1 ≤ i ∧ i ≤ (stl_get_summary ts).vertices_count ∧
      1 ≤ j ∧ j ≤ (stl_get_summary ts).vertices_count ∧
      1 ≤ k ∧ k ≤ (stl_get_summary ts).vertices_count) := by
  refine ⟨?_, ?_, ?_, ?_, ?_⟩
  · rw [export_filter_v, List.length_map]
    rfl
  · rw [export_filter_f, List.length_map]
    rfl
  · unfold stl_get_summary stlFaces
    simp
  · rw [export_filter_v, export_filter_f]
    rfl
  · intro i j k hmem
    unfold export_to_obj at hmem
    rcases List.mem_append.mp hmem with hv | hf
    · obtain ⟨p, -, hpe⟩ := List.mem_map.mp hv
      exact absurd hpe (by simp)
    · obtain ⟨f, hfm, hfe⟩ := List.mem_map.mp hf
      obtain ⟨b1, b2, b3⟩ := stlFaces_bounds hfm
      obtain ⟨e1, e2, e3⟩ : f.1 + 1 = i ∧ f.2.1 + 1 = j ∧ f.2.2 + 1 = k := by
        cases hfe
        exact ⟨rfl, rfl, rfl⟩
      have hvc : (stl_get_summary ts).vertices_count =
        (verticesUnique ts).length := rfl
      rw [hvc]
      omega

/-- C5 witness: on the shared-edge sample, the face line `f 1 3 2` occurs
in the export and its indices are 1-based and within the vertex count. -/
theorem export_to_obj_roundtrip_counts_witness :
    1 ≤ 1 ∧ 1 ≤ (stl_get_summary stlSampleTris).vertices_count ∧
    1 ≤ 3 ∧ 3 ≤ (stl_get_summary stlSampleTris).vertices_count ∧
    1 ≤ 2 ∧ 2 ≤ (stl_get_summary stlSampleTris).vertices_count :=
  (export_to_obj_roundtrip_counts stlSampleTris).2.2.2.2 1 3 2 (by decide)

theorem foldl_min_le_init (l : List ℚ) (a : ℚ) : l.foldl min a ≤ a := by
  induction l generalizing a with
  | nil => simp
  | cons b r ih => exact le_trans (ih (min a b)) (min_le_left a b)

theorem foldl_min_le_mem {l : List ℚ} {x : ℚ} (h : x ∈ l) (a : ℚ) :
    l.foldl min a ≤ x := by
  induction l generalizing a with
  | nil => simp at h
  | cons b r ih =>
    rcases List.mem_cons.mp h with hb | hr
    · subst hb
      exact le_trans (foldl_min_le_init r (min a x)) (min_le_right a x)
    · exact ih hr (min a b)

theorem foldl_max_init_le (l : List ℚ) (a : ℚ) : a ≤ l.foldl max a := by
  induction l generalizing a with
  | nil => simp
  | cons b r ih => exact le_trans (le_max_left a b) (ih (max a b))

theorem foldl_max_mem_le {l : List ℚ} {x : ℚ} (h : x ∈ l) (a : ℚ) :
    x ≤ l.foldl max a := by
  induction l generalizing a with
  | nil => simp at h
  | cons b r ih =>
    rcases List.mem_cons.mp h with hb | hr
    · subst hb
      exact le_trans (le_max_right a x) (foldl_max_init_le r (max a x))
    · exact ih hr (max a b)

theorem listMin_le {l : List ℚ} {m x : ℚ} (hm : listMin l = some m)
    (hx : x ∈ l) : m ≤ x := by
  cases l with
  | nil => exact absurd hm (by simp [listMin])
  | cons a r =>
    have hme : m = r.foldl min a := by
      simp only [listMin, Option.some.injEq] at hm
      exact hm.symm
    subst hme
    rcases List.mem_cons.mp hx with hxa | hxr
    · subst hxa
      exact foldl_min_le_init r x
    · exact foldl_min_le_mem hxr a

theorem le_listMax {l : List ℚ} {m x : ℚ} (hm : listMax l = some m)
    (hx : x ∈ l) : x ≤ m := by
  cases l with
  | nil => exact absurd hm (by simp [listMax])
  | cons a r =>
    have hme : m = r.foldl max a := by
      simp only [listMax, Option.some.injEq] at hm
      exact hm.symm
    subst hme
    rcases List.mem_cons.mp hx with hxa | hxr
    · subst hxa
      exact foldl_max_init_le r x
    · exact foldl_max_mem_le hxr a

/-- C6: a document holding a single `CIRCLE` on one layer yields an empty
lines table, a circles table with exactly one row whose computed area is
`np.pi * r ** 2` (with `np.pi` the IEEE double `piQ`), and drawing bounds
equal to `(cx - r, cy - r, cx + r, cy + r)`. -/
theorem single_circle_extraction (layer : String) (cx cy cz r : ℚ)
    (color : Int) (hr : 0 ≤ r) :
    extract_lines [DxfEntity.circle layer cx cy cz r color] none = [] ∧
    extract_circles [DxfEntity.circle layer cx cy cz r color] none =
      [⟨layer, cx, cy, cz, r, color, piQ * r ^ 2⟩] ∧
    get_drawing_bounds [DxfEntity.circle layer cx cy cz r color] =
      some (cx - r, cy - r, cx + r, cy + r) := by
  refine ⟨rfl, rfl, ?_⟩
  have h1 : cx - r ≤ cx + r := by linarith
  have h2 : cy - r ≤ cy + r := by linarith
  have hxs : boundsXs [DxfEntity.circle layer cx cy cz r color] =
      [cx - r, cx + r] := rfl
  have hys : boundsYs [DxfEntity.circle layer cx cy cz r color] =
      [cy - r, cy + r] := rfl
  unfold get_drawing_bounds
  rw [hxs, hys]
  simp only [listMin, listMax, List.foldl]
  rw [min_eq_left h1, min_eq_left h2, max_eq_right h1, max_eq_right h2]

/-- C6 witness: a circle of radius 3 at (1, 2) on layer BOUNDARIES. -/
theorem single_circle_extraction_witness :
    extract_lines [DxfEntity.circle "BOUNDARIES" 1 2 0 3 256] none = [] ∧
    extract_circles [DxfEntity.circle "BOUNDARIES" 1 2 0 3 256] none =
      [⟨"BOUNDARIES", 1, 2, 0, 3, 256, piQ * 3 ^ 2⟩] ∧
    get_drawing_bounds [DxfEntity.circle "BOUNDARIES" 1 2 0 3 256] =
      some (1 - 3, 2 - 3, 1 + 3, 2 + 3) :=
  single_circle_extraction "BOUNDARIES" 1 2 0 3 256 (by norm_num)

/-- C7 counterexample: `get_drawing_bounds` never aggregates
`extract_text`, so the extracted TEXT row at x = 100 lies outside the
returned bounds `(0, 0, 1, 1)` of a document whose only other entity is a
line from (0,0) to (1,1) — refuting the claim that every extracted
entity's coordinates, including text insertion points, lie within the
bounds. -/
theorem bounds_ignore_text_counterexample :
    get_drawing_bounds dxfSampleDoc = some (0, 0, 1, 1) ∧
    (extract_text dxfSampleDoc none).map (fun row => row.x) = [100] ∧
    ¬ ((100 : ℚ) ≤ 1) := by
  refine ⟨?_, rfl, by norm_num⟩
  have h01 : (0 : ℚ) ≤ 1 := by norm_num
  have hxs : boundsXs dxfSampleDoc = [0, 1] := rfl
  have hys : boundsYs dxfSampleDoc = [0, 1] := rfl
  unfold get_drawing_bounds
  rw [hxs, hys]
  simp only [listMin, listMax, List.foldl]
  rw [min_eq_left h01, max_eq_right h01]

/-- C7 (amended): the drawing bounds aggregate the coordinate extremes of
the extracted lines, polylines and circles tables — circles contributing
center ± radius — and every such coordinate lies within the returned
bounds; TEXT/MTEXT insertion points are not aggregated and may fall
outside. -/
theorem drawing_bounds_cover_entities (doc : List DxfEntity)
    (a b c d : ℚ) (h : get_drawing_bounds doc = some (a, b, c, d)) :
    (∀ row ∈ extract_lines doc none,
      a ≤ row.start_x ∧ row.start_x ≤ c ∧ a ≤ row.end_x ∧ row.end_x ≤ c ∧
      b ≤ row.start_y ∧ row.start_y ≤ d ∧ b ≤ row.end_y ∧ row.end_y ≤ d) ∧
    (∀ row ∈ extract_circles doc none,
      a ≤ row.center_x - row.radius ∧ row.center_x + row.radius ≤ c ∧
      b ≤ row.center_y - row.radius ∧ row.center_y + row.radius ≤ d) ∧
    (∀ row ∈ extract_polylines doc none, ∀ pt ∈ row.points,
      ∀ x0 y0 rest2, pt = x0 :: y0 :: rest2 →
        a ≤ x0 ∧ x0 ≤ c ∧ b ≤ y0 ∧ y0 ≤ d) := by
  unfold get_drawing_bounds at h
  cases hx1 : listMin (boundsXs doc) with
  | none => rw [hx1] at h; exact absurd h (by simp)
  | some a2 =>
  rw [hx1] at h
  cases hy1 : listMin (boundsYs doc) with
  | none => rw [hy1] at h; exact absurd h (by simp)
  | some b2 =>
  rw [hy1] at h
  cases hx2 : listMax (boundsXs doc) with
  | none => rw [hx2] at h; exact absurd h (by simp)
  | some c2 =>
  rw [hx2] at h
  cases hy2 : listMax (boundsYs doc) with
  | none => rw [hy2] at h; exact absurd h (by simp)
  | some d2 =>
  rw [hy2] at h
  obtain ⟨ea, eb, ec, ed⟩ : a2 = a ∧ b2 = b ∧ c2 = c ∧ d2 = d := by
    cases h
    exact ⟨rfl, rfl, rfl, rfl⟩
  subst ea
  subst eb
  subst ec
  subst ed
  have hmemx : ∀ x ∈ boundsXs doc, a2 ≤ x ∧ x ≤ c2 :=
    fun x hx => ⟨listMin_le hx1 hx, le_listMax hx2 hx⟩
  have hmemy : ∀ y ∈ boundsYs doc, b2 ≤ y ∧ y ≤ d2 :=
    fun y hy => ⟨listMin_le hy1 hy, le_listMax hy2 hy⟩
  refine ⟨?_, ?_, ?_⟩
  · intro row hrow
    have hsx := hmemx row.start_x (by
      unfold boundsXs
      refine List.mem_append.mpr (Or.inl (List.mem_append.mpr (Or.inl
        (List.mem_append.mpr (Or.inl ?_)))))
      exact List.mem_map.mpr ⟨row, hrow, rfl⟩)
    have hex := hmemx row.end_x (by
      unfold boundsXs
      refine List.mem_append.mpr (Or.inl (List.mem_append.mpr (Or.inl
        (List.mem_append.mpr (Or.inr ?_)))))
      exact List.mem_map.mpr ⟨row, hrow, rfl⟩)
    have hsy := hmemy row.start_y (by
      unfold boundsYs
      refine List.mem_append.mpr (Or.inl (List.mem_append.mpr (Or.inl
        (List.mem_append.mpr (Or.inl ?_)))))
      exact List.mem_map.mpr ⟨row, hrow, rfl⟩)
    have hey := hmemy row.end_y (by
      unfold boundsYs
      refine List.mem_append.mpr (Or.inl (List.mem_append.mpr (Or.inl
        (List.mem_append.mpr (Or.inr ?_)))))
      exact List.mem_map.mpr ⟨row, hrow, rfl⟩)
    exact ⟨hsx.1, hsx.2, hex.1, hex.2, hsy.1, hsy.2, hey.1, hey.2⟩
  · intro row hrow
    have hlo := hmemx (row.center_x - row.radius) (by
      unfold boundsXs
      refine List.mem_append.mpr (Or.inl (List.mem_append.mpr (Or.inr ?_)))
      exact List.mem_bind.mpr ⟨row, hrow, by simp⟩)
    have hhi := hmemx (row.center_x + row.radius) (by
      unfold boundsXs
      refine List.mem_append.mpr (Or.inl (List.mem_append.mpr (Or.inr ?_)))
      exact List.mem_bind.mpr ⟨row, hrow, by simp⟩)
    have hlo2 := hmemy (row.center_y - row.radius) (by
      unfold boundsYs
      refine List.mem_append.mpr (Or.inl (List.mem_append.mpr (Or.inr ?_)))
      exact List.mem_bind.mpr ⟨row, hrow, by simp⟩)
    have hhi2 := hmemy (row.center_y + row.radius) (by
      unfold boundsYs
      refine List.mem_append.mpr (Or.inl (List.mem_append.mpr (Or.inr ?_)))
      exact List.mem_bind.mpr ⟨row, hrow, by simp⟩)
    exact ⟨hlo.1, hhi.2, hlo2.1, hhi2.2⟩
  · intro row hrow pt hpt x0 y0 rest2 hpe
    subst hpe
    have hx := hmemx x0 (by
      unfold boundsXs
      refine List.mem_append.mpr (Or.inr ?_)
      refine List.mem_bind.mpr ⟨row, hrow, ?_⟩
      exact List.mem_filterMap.mpr ⟨x0 :: y0 :: rest2, hpt, rfl⟩)
    have hy := hmemy y0 (by
      unfold boundsYs
      refine List.mem_append.mpr (Or.inr ?_)
      refine List.mem_bind.mpr ⟨row, hrow, ?_⟩
      exact List.mem_filterMap.mpr ⟨x0 :: y0 :: rest2, hpt, rfl⟩)
    exact ⟨hx.1, hx.2, hy.1, hy.2⟩

/-- C7 witness: on the line-only document the bounds are `(0, 0, 1, 1)`
and the line row's coordinates satisfy the containment bounds. -/
theorem drawing_bounds_cover_entities_witness :
    0 ≤ dxfLineRow.start_x ∧ dxfLineRow.start_x ≤ 1 ∧
    0 ≤ dxfLineRow.end_x ∧ dxfLineRow.end_x ≤ 1 ∧
    0 ≤ dxfLineRow.start_y ∧ dxfLineRow.start_y ≤ 1 ∧
    0 ≤ dxfLineRow.end_y ∧ dxfLineRow.end_y ≤ 1 := by
  have hb : get_drawing_bounds dxfLineOnlyDoc = some (0, 0, 1, 1) := by
    have h01 : (0 : ℚ) ≤ 1 := by norm_num
    have hxs : boundsXs dxfLineOnlyDoc = [0, 1] := rfl
    have hys : boundsYs dxfLineOnlyDoc = [0, 1] := rfl
    unfold get_drawing_bounds
    rw [hxs, hys]
    simp only [listMin, listMax, List.foldl]
    rw [min_eq_left h01, max_eq_right h01]
  exact (drawing_bounds_cover_entities dxfLineOnlyDoc 0 0 1 1 hb).1
    dxfLineRow (by simp [extract_lines, dxfLineOnlyDoc, dxfLineRow,
      layerSelected])

theorem lookup_mem_values {m : List (String × String)} {x c : String}
    (h : m.lookup x = some c) : c ∈ m.map Prod.snd := by
  induction m with
  | nil => simp at h
  | cons p r ih =>
    obtain ⟨k, v⟩ := p
    simp only [List.lookup] at h
    split at h
    · cases h
      simp
    · simp only [List.map_cons]
      exact List.mem_cons.mpr (Or.inr (ih h))

/-- C9: categorical normalization (modelled from the spec) is idempotent
for the spec's variant mappings, returns already-canonical values
unchanged, and passes every value outside the variant mapping through
unchanged. -/
theorem normalize_categorical_idempotent :
    (∀ x, normalizeCategorical detectedBySystemMapping
        (normalizeCategorical detectedBySystemMapping x) =
      normalizeCategorical detectedBySystemMapping x) ∧
    (∀ x, normalizeCategorical statusMapping
        (normalizeCategorical statusMapping x) =
      normalizeCategorical statusMapping x) ∧
    (∀ c ∈ detectedBySystemMapping.map Prod.snd,
      normalizeCategorical detectedBySystemMapping c = c) ∧
    (∀ c ∈ statusMapping.map Prod.snd,
      normalizeCategorical statusMapping c = c) ∧
    (∀ (m : List (String × String)) (x : String),
      m.lookup x = none → normalizeCategorical m x = x) := by
  have hdet : ∀ c ∈ detectedBySystemMapping.map Prod.snd,
      detectedBySystemMapping.lookup c = none := by decide
  have hst : ∀ c ∈ statusMapping.map Prod.snd,
      statusMapping.lookup c = none := by decide
  refine ⟨?_, ?_, ?_, ?_, ?_⟩
  · intro x
    cases h : detectedBySystemMapping.lookup x with
    | none => simp [normalizeCategorical, h]
    | some c =>
      have hc := hdet c (lookup_mem_values h)
      simp [normalizeCategorical, h, hc]
  · intro x
    cases h : statusMapping.lookup x with
    | none => simp [normalizeCategorical, h]
    | some c =>
      have hc := hst c (lookup_mem_values h)
      simp [normalizeCategorical, h, hc]
  · intro c hc
    simp [normalizeCategorical, hdet c hc]
  · intro c hc
    simp [normalizeCategorical, hst c hc]
  · intro m x h
    simp [normalizeCategorical, h]

/-- C9 witness: the canonical token `Sí` is returned unchanged, and the
unmatched value `tal vez` passes through unchanged. -/
theorem normalize_categorical_idempotent_witness :
    normalizeCategorical detectedBySystemMapping "Sí" = "Sí" ∧
    normalizeCategorical detectedBySystemMapping "tal vez" = "tal vez" :=
  ⟨normalize_categorical_idempotent.2.2.1 "Sí" (by decide),
   normalize_categorical_idempotent.2.2.2.2 detectedBySystemMapping
     "tal vez" (by decide)⟩

/-- C10: the app's OBJ download path invokes `export_as_obj`, which
`STLLoader` does not define — it defines only `export_to_obj` — so for
every loaded mesh the invocation raises `AttributeError` and never
produces an OBJ string. -/
theorem app_obj_export_attribute_error (ts : List Tri) :
    appObjDownloadStep ts = PyCallResult.attrError "export_as_obj" ∧
    stlLoaderAttrs.contains "export_as_obj" = false ∧
    stlLoaderAttrs.contains "export_to_obj" = true := by
  have hc : stlLoaderAttrs.contains "export_as_obj" = false := by decide
  have hm : "export_as_obj" ∉ stlLoaderAttrs := by decide
  refine ⟨?_, hc, by decide⟩
  simp [appObjDownloadStep, getattrCall, hc, hm]

end GeoViz
